import Mathlib

/-!
Verification of the typed-array-iterator stream pipeline engine.

The definitions below are a shallow embedding of the TypeScript sources:

* `MFOp`, `applyFused`, `fusedToArray` embed the fused transform/filter
  pipeline produced by `buildOpsUnrolled` (src/stream/compiler.ts,
  src/stream/codegen/shared.ts) and executed by the compiled `toArray`
  loops (`emitArrayLoop` / `emitIterableLoop`): each source element is
  threaded through every step with its position in the source, a failing
  filter abandons the element.
* `refStagePass` / `refStagedToArray` embed the reference unfused
  evaluation the specification compares against (one whole map or filter
  pass per operation, indices recomputed per stage as `Array.prototype.map`
  and `Array.prototype.filter` do).
* `refPairStep` / `refSourceIdxToArray` is the same unfused evaluation
  except that every callback receives the element's index in the original
  source, which is what the fused loops actually pass.

JavaScript strings are modelled as `List Char` (`JStr`); the helpers
`jsTokenize`, `sortTokensDesc`, `lowerJStr`, `startsWithCI`, `containsCI`
mirror `query.split(/\s+/).filter(t => t.length > 0)`, the in-place
stable `sort((a, b) => b.length - a.length)`, and the case-insensitive
anchored/unanchored regex matching built by `Stream.filterText` and
`lib/buildRegExps`.
-/

/-- JavaScript string, modelled as its list of code points. -/
abbrev JStr := List Char

/-- The ToInt32 conversion applied by the JavaScript `| 0` operator. -/
def toInt32 (n : Int) : Int :=
  let r := n % 4294967296
  if r < 2147483648 then r else r - 4294967296

/-- Boolean infix test on lists, used to check substrings of error messages. -/
def listIsInfix [BEq α] : List α → List α → Bool
  | pat, [] => pat.isEmpty
  | pat, t :: ts => pat.isPrefixOf (t :: ts) || listIsInfix pat ts

/-- Substring test on Lean strings via their character lists. -/
def strContains (s pat : String) : Bool := listIsInfix pat.data s.data

/-- Whitespace characters recognised by the `/\s+/` tokenizer. -/
def jsWhitespaceChar (c : Char) : Bool := c = ' ' || c = '\t' || c = '\n' || c = '\r'

/-- Split a character list at every character satisfying `p` (pieces may be empty),
mirroring `String.prototype.split` with a single-character-class regex. -/
def splitChars (p : Char → Bool) : List Char → List (List Char)
  | [] => [[]]
  | c :: cs =>
    let rest := splitChars p cs
    if p c then [] :: rest
    else match rest with
      | [] => [[c]]
      | piece :: pieces => (c :: piece) :: pieces

/-- The tokenizer of `Stream.filterText` and `lib/tokenize.ts`:
`query.split(/\s+/).filter(t => t.length > 0)`. -/
def jsTokenize (q : JStr) : List JStr :=
  (splitChars jsWhitespaceChar q).filter (fun t => t.length > 0)

/-- Stable insertion step for descending-length ordering: a token from earlier in
the list stays in front of later tokens of equal length. -/
def insertByLenDesc (t : JStr) : List JStr → List JStr
  | [] => [t]
  | u :: us => if u.length ≤ t.length then t :: u :: us else u :: insertByLenDesc t us

/-- The in-place stable `tokens.sort((a, b) => b.length - a.length)` of
`Stream.filterText`: sort by length, descending, stable. -/
def sortTokensDesc : List JStr → List JStr
  | [] => []
  | t :: ts => insertByLenDesc t (sortTokensDesc ts)

/-- ASCII lowering of one character, the effect of the `i` regex flag on the
ASCII tokens and fields exercised here. -/
def asciiLower (c : Char) : Char :=
  if 65 ≤ c.toNat ∧ c.toNat ≤ 90 then Char.ofNat (c.toNat + 32) else c

/-- Case-insensitive normalisation of a modelled string. -/
def lowerJStr (s : JStr) : JStr := s.map asciiLower

/-- Case-insensitive "field starts with token": the semantics of the anchored
regex `new RegExp('^' + escapeRegExp(token), 'i')` on a literal token. -/
def startsWithCI (field tok : JStr) : Bool :=
  (lowerJStr tok).isPrefixOf (lowerJStr field)

/-- Case-insensitive "field contains token": the semantics of the unanchored
regex `new RegExp(escapeRegExp(token), 'i')` on a literal token. -/
def containsCI (field tok : JStr) : Bool :=
  listIsInfix (lowerJStr tok) (lowerJStr field)

/-- A transform or filter pipeline operation (the only op kinds allowed by the
fusion-equivalence property). Callbacks receive the current value and an index. -/
inductive MFOp (V : Type) where
  | transform (f : V → Nat → V)
  | filter (p : V → Nat → Bool)

/-- Run the fused step lines of `buildOpsUnrolled` on one element: each
`transform` rebinds the current value, a failing `filter` abandons the element
(`continue`). `i` is the loop's `index` variable, the element's position in the
source, which is what the generated code passes to every callback. -/
def applyFused {V : Type} : List (MFOp V) → V → Nat → Option V
  | [], v, _ => some v
  | .transform f :: rest, v, i => applyFused rest (f v i) i
  | .filter p :: rest, v, i => if p v i then applyFused rest v i else none

/-- The compiled `toArray` terminal over a finite source: both loop skeletons
(`emitArrayLoop` over indices, `emitIterableLoop` over a cursor with
`logicalIndex`) visit the elements in order with their source position and
append every element that survives the fused steps. -/
def fusedToArray {V : Type} (ops : List (MFOp V)) (src : List V) : List V :=
  src.enum.filterMap (fun p => applyFused ops p.2 p.1)

/-- One whole reference pass for a single operation, with indices recomputed at
this stage: `xs.map((v, i) => f(v, i))` or `xs.filter((v, i) => p(v, i))`. -/
def refStagePass {V : Type} : MFOp V → List V → List V
  | .transform f, xs => xs.enum.map (fun p => f p.2 p.1)
  | .filter p, xs => xs.enum.filterMap (fun q => if p q.2 q.1 then some q.2 else none)

/-- Reference unfused evaluation as the specification words it: apply the
operations one at a time, a whole pass per operation, each callback receiving
the element and its index at that stage. -/
def refStagedToArray {V : Type} (ops : List (MFOp V)) (src : List V) : List V :=
  ops.foldl (fun xs op => refStagePass op xs) src

/-- One whole unfused pass where each element carries its original source index
and callbacks receive that index instead of the stage-local one. -/
def refPairStep {V : Type} : MFOp V → List (V × Nat) → List (V × Nat)
  | .transform f, xs => xs.map (fun q => (f q.1 q.2, q.2))
  | .filter p, xs => xs.filterMap (fun q => if p q.1 q.2 then some q else none)

/-- Reference unfused evaluation with original-source indices: apply the
operations one at a time over (value, source index) pairs. -/
def refSourceIdxToArray {V : Type} (ops : List (MFOp V)) (src : List V) : List V :=
  (ops.foldl (fun xs op => refPairStep op xs)
      (src.enum.map (fun p => (p.2, p.1)))).map Prod.fst

/-- The error text thrown by the compiled `reduce` when nothing was emitted and
no initial value was supplied (Stream.ts / codegen/compileReduce.ts). -/
def jsReduceErrMsg : String := "Reduce of empty stream with no initial value"

/-- The reduce terminal body over the sequence of emitted elements. JavaScript
values are modelled as `Option A` with `none` standing for `undefined`; the
state is (accumulator, started, reducer-call count). Mirrors TERMINAL_REDUCE:
if `started`, combine via the reducer at the running emitted index; otherwise
adopt the current value as the accumulator and set `started`. -/
def reduceLoop {A : Type} (f : Option A → Option A → Nat → Option A) :
    List (Option A) → Option A → Bool → Nat → Nat → Option A × Bool × Nat
  | [], acc, started, _, calls => (acc, started, calls)
  | v :: rest, acc, started, eIdx, calls =>
    if started then reduceLoop f rest (f acc v eIdx) true (eIdx + 1) (calls + 1)
    else reduceLoop f rest v true (eIdx + 1) calls

/-- The compiled `reduce` terminal: `started` begins as
`initialValue !== undefined` (`init.isSome`), the accumulator begins as
`initialValue` (`undefined` when absent), the loop body consumes exactly the
elements that survive the fused steps in order, and a `TypeError` is thrown
after the loop when `started` is still false. Returns the outcome together
with the number of reducer invocations. -/
def reduceRun {A : Type} (ops : List (MFOp (Option A)))
    (f : Option A → Option A → Nat → Option A) (init : Option A)
    (src : List (Option A)) : Except String (Option A) × Nat :=
  let r := reduceLoop f (fusedToArray ops src) init init.isSome 0 0
  (if r.2.1 then .ok r.1 else .error jsReduceErrMsg, r.2.2)

/-- Indexed left fold: combine the accumulator with each element at the running
emitted index, the behaviour of the reduce body once `started` is true. -/
def foldIdx {A : Type} (f : Option A → Option A → Nat → Option A) :
    List (Option A) → Option A → Nat → Option A
  | [], acc, _ => acc
  | v :: rest, acc, i => foldIdx f rest (f acc v i) (i + 1)

/-- A pipeline operation of the compiling Stream (src/stream/compiler.ts):
transform, filter (carrying whether its function is the `noMatch` marker the
compiler detects by reference equality), or range with optional upper bound. -/
inductive COp (V : Type) where
  | transform (f : V → Nat → V)
  | filter (p : V → Nat → Bool) (isNoMatch : Bool)
  | range (start : Int) (stop : Option Int)

/-- Whether any filter op is present (`hasAnyFilter`). -/
def hasFilterOps {V : Type} (ops : List (COp V)) : Bool :=
  ops.any fun op => match op with | .filter _ _ => true | _ => false

/-- Whether any op's function is the `noMatch` marker (`hasNoMatchOps`). -/
def hasNoMatchOps {V : Type} (ops : List (COp V)) : Bool :=
  ops.any fun op => match op with | .filter _ m => m | _ => false

/-- Whether some range op has `(op.start | 0) > 0`. -/
def hasPositiveStartRange {V : Type} (ops : List (COp V)) : Bool :=
  ops.any fun op => match op with | .range s _ => decide (0 < toInt32 s) | _ => false

/-- The message of the error thrown by `buildOpsUnrolled` when filters are
combined with a positive-start range. -/
def streamLimitMsg : String :=
  "Stream limitation: range(start > 0) with filters is not yet supported. Use range(0, n)/take() or move filters after slice materialization for now. See README.md and multi-range-support.md for details."

/-- One `applyRange` fold step over the aggregate `(skipInitial, maxEmits)`
bounds: clamp the truncated start at 0 and add it to `skipInitial`; when an
upper bound exists take the running minimum of the clamped lengths. -/
def applyRangeAgg (s : Int) (stop : Option Int) (agg : Int × Option Int) :
    Int × Option Int :=
  let s0 := max 0 (toInt32 s)
  let len := stop.map fun e => max 0 (toInt32 e - s0)
  let m :=
    match agg.2, len with
    | none, none => none
    | none, some l => some l
    | some m0, none => some m0
    | some m0, some l => some (min m0 l)
  (agg.1 + s0, m.map fun x => max 0 x)

/-- Aggregate range bounds over the whole op list (single left-to-right pass). -/
def rangeAgg {V : Type} (ops : List (COp V)) : Int × Option Int :=
  ops.foldl
    (fun agg op => match op with | .range s e => applyRangeAgg s e agg | _ => agg)
    (0, none)

/-- Outcome of `buildOpsUnrolled`: a thrown error, the frozen NO_RESULTS plan,
or a normal fused plan with its aggregated bounds. -/
inductive PlanOutcome (V : Type) where
  | err (msg : String)
  | noResults
  | plan (skipInitial : Int) (maxEmits : Option Int)

/-- The gatekeeping and aggregation of `buildOpsUnrolled`: throw when a filter
is present together with a positive-start range; return the NO_RESULTS plan
when a filter is present and some op is the `noMatch` marker; otherwise build
the fused plan. -/
def buildOps {V : Type} (ops : List (COp V)) : PlanOutcome V :=
  if hasFilterOps ops && hasPositiveStartRange ops then .err streamLimitMsg
  else if hasFilterOps ops && hasNoMatchOps ops then .noResults
  else .plan (rangeAgg ops).1 (rangeAgg ops).2

/-- Run the fused step lines of the compiling Stream on one element: ranges
contribute no per-element step (they only feed the aggregated bounds). -/
def applyCSteps {V : Type} : List (COp V) → V → Nat → Option V
  | [], v, _ => some v
  | .transform f :: rest, v, i => applyCSteps rest (f v i) i
  | .filter p _ :: rest, v, i => if p v i then applyCSteps rest v i else none
  | .range _ _ :: rest, v, i => applyCSteps rest v i

/-- The `MAX >= 0 && emittedIndex >= MAX` early-stop test, with `none`
modelling `MAX = -1` (no bound). -/
def maxHit (maxE : Option Int) (emitted : Nat) : Bool :=
  match maxE with
  | none => false
  | some m => decide (0 ≤ m) && decide (m ≤ (emitted : Int))

/-- Source elements paired with their source position, the order both loop
skeletons visit them in. -/
def enumPairs {V : Type} (src : List V) : List (V × Nat) :=
  src.enum.map fun p => (p.2, p.1)

/-- The compiled `toArray` loop of the compiling Stream: the skip-prefix
counter gates entry to the fused steps, surviving elements are appended, and
the loop breaks once `maxEmits` is reached. -/
def toArrayLoop {V : Type} (ops : List (COp V)) :
    List (V × Nat) → Int → Option Int → Nat → List V
  | [], _, _, _ => []
  | (v, i) :: rest, skip, maxE, e =>
    if 0 < skip then toArrayLoop ops rest (skip - 1) maxE e
    else match applyCSteps ops v i with
      | none => toArrayLoop ops rest skip maxE e
      | some w =>
        if maxHit maxE (e + 1) then [w]
        else w :: toArrayLoop ops rest skip maxE (e + 1)

/-- The compiled `every` loop: a failing terminal predicate returns false, the
early-stop check after a successful close returns true. -/
def everyLoop {V : Type} (ops : List (COp V)) (pred : V → Nat → Bool) :
    List (V × Nat) → Int → Option Int → Nat → Bool
  | [], _, _, _ => true
  | (v, i) :: rest, skip, maxE, e =>
    if 0 < skip then everyLoop ops pred rest (skip - 1) maxE e
    else match applyCSteps ops v i with
      | none => everyLoop ops pred rest skip maxE e
      | some w =>
        if !pred w e then false
        else if maxHit maxE (e + 1) then true
        else everyLoop ops pred rest skip maxE (e + 1)

/-- The compiled `count` loop: increment per emission, early-stop returns the
running count. -/
def countLoop {V : Type} (ops : List (COp V)) :
    List (V × Nat) → Int → Option Int → Nat → Nat
  | [], _, _, e => e
  | (v, i) :: rest, skip, maxE, e =>
    if 0 < skip then countLoop ops rest (skip - 1) maxE e
    else match applyCSteps ops v i with
      | none => countLoop ops rest skip maxE e
      | some _ =>
        if maxHit maxE (e + 1) then e + 1
        else countLoop ops rest skip maxE (e + 1)

/-- Whether an `Except` is a success. -/
def exceptIsOk {ε α : Type} : Except ε α → Bool
  | .ok _ => true
  | .error _ => false

/-- `StreamCompiler.compileToArray` invoked on a source: `buildOpsUnrolled`
runs first (its error propagates), the NO_RESULTS plan returns `[]`, and a
normal plan runs the fused loop. -/
def compiledToArray {V : Type} (ops : List (COp V)) (src : List V) :
    Except String (List V) :=
  match buildOps ops with
  | .err m => .error m
  | .noResults => .ok []
  | .plan skip maxE => .ok (toArrayLoop ops (enumPairs src) skip maxE 0)

/-- `StreamCompiler.compileEvery` invoked on a source. The NO_RESULTS body the
compiler emits for `every` is `return false`. -/
def compiledEvery {V : Type} (ops : List (COp V)) (src : List V)
    (pred : V → Nat → Bool) : Except String Bool :=
  match buildOps ops with
  | .err m => .error m
  | .noResults => .ok false
  | .plan skip maxE => .ok (everyLoop ops pred (enumPairs src) skip maxE 0)

/-- `StreamCompiler.compileCount` invoked on a source (NO_RESULTS returns 0). -/
def compiledCount {V : Type} (ops : List (COp V)) (src : List V) :
    Except String Nat :=
  match buildOps ops with
  | .err m => .error m
  | .noResults => .ok 0
  | .plan skip maxE => .ok (countLoop ops (enumPairs src) skip maxE 0)

/-- The `filter(p)` chain method: append one filter op. -/
def filterChain {V : Type} (ops : List (COp V)) (p : V → Nat → Bool) : List (COp V) :=
  ops ++ [.filter p false]

/-- Modelled from the spec: the facade pipeline builder file carrying the
chain methods of the compiling Stream is not under src (only its tests and
collaborators are); per the specification `drop(n)` is `range(n)` with no
upper bound. -/
def dropChain {V : Type} (ops : List (COp V)) (n : Int) : List (COp V) :=
  ops ++ [.range n none]

/-- Modelled from the spec: `take(n)` is `range(0, n)`. -/
def takeChain {V : Type} (ops : List (COp V)) (n : Int) : List (COp V) :=
  ops ++ [.range 0 (some n)]

/-- A pipeline op of the single-use Stream whose `drop`/`take` helpers are
built as filters over a captured mutable counter (Stream.ts): a pure
transform, a pure filter, or one of the two counter-closure filters.
The counter value is part of the op because the closure lives in the Stream
value and survives across terminal runs. -/
inductive ROp (V : Type) where
  | transform (f : V → Nat → V)
  | filter (p : V → Nat → Bool)
  | dropCounter (remaining : Int)
  | takeCounter (remaining : Int)

/-- One fused step of the single-use Stream on one element, returning the step
result and the op with its updated closure state. `drop`'s predicate is
`() => remaining-- <= 0` (keep when the old value is at most 0), `take`'s is
`() => remaining-- > 0`; both decrement on every invocation. -/
def stepROp {V : Type} : ROp V → V → Nat → Option V × ROp V
  | .transform f, v, i => (some (f v i), .transform f)
  | .filter p, v, i => (if p v i then some v else none, .filter p)
  | .dropCounter r, v, _ => (if r ≤ 0 then some v else none, .dropCounter (r - 1))
  | .takeCounter r, v, _ => (if 0 < r then some v else none, .takeCounter (r - 1))

/-- Run the fused steps on one element: a failing filter step abandons the
element without invoking the later steps (their closures are not touched). -/
def runROps {V : Type} : List (ROp V) → V → Nat → Option V × List (ROp V)
  | [], v, _ => (some v, [])
  | op :: rest, v, i =>
    let s := stepROp op v i
    match s.1 with
    | none => (none, s.2 :: rest)
    | some w =>
      let r := runROps rest w i
      (r.1, s.2 :: r.2)

/-- One full `toArray` terminal run of the single-use Stream over the source:
every source element goes through the fused steps (updating closure states),
survivors are appended in order. Returns the output and the op list with the
closure states it leaves behind for any later run. -/
def runROpsToArray {V : Type} : List (ROp V) → List (V × Nat) → List V × List (ROp V)
  | ops, [] => ([], ops)
  | ops, (v, i) :: rest =>
    let s := runROps ops v i
    let r := runROpsToArray s.2 rest
    (match s.1 with | some w => w :: r.1 | none => r.1, r.2)

/-- A `toArray` terminal invocation on a Stream value holding `ops`. -/
def streamToArrayRun {V : Type} (ops : List (ROp V)) (src : List V) :
    List V × List (ROp V) :=
  runROpsToArray ops (enumPairs src)

/-- An op is stateless when it is a plain transform or filter (no captured
counter). -/
def isStatelessROp {V : Type} : ROp V → Bool
  | .transform _ => true
  | .filter _ => true
  | _ => false

/-- The compiled `some` terminal over a generic-sequence source whose cursor
exposes a return/close hook, with the close accounting of the `for...of`
protocol made explicit: leaving the loop through `return true` closes the
cursor exactly once, exhausting it (`done`) performs no close. The result is
(answer, number of close-hook invocations); `i` is the logical index, `e` the
emitted index. -/
def someCloseRun {V : Type} (ops : List (MFOp V)) (pred : V → Nat → Bool) :
    List V → Nat → Nat → Bool × Nat
  | [], _, _ => (false, 0)
  | v :: rest, i, e =>
    match applyFused ops v i with
    | none => someCloseRun ops pred rest (i + 1) e
    | some w =>
      if pred w e then (true, 1)
      else someCloseRun ops pred rest (i + 1) (e + 1)

/-- The compiled `find` terminal over the same cursor model: leaving through
`return currentValue` closes the cursor exactly once. -/
def findCloseRun {V : Type} (ops : List (MFOp V)) (pred : V → Nat → Bool) :
    List V → Nat → Nat → Option V × Nat
  | [], _, _ => (none, 0)
  | v :: rest, i, e =>
    match applyFused ops v i with
    | none => findCloseRun ops pred rest (i + 1) e
    | some w =>
      if pred w e then (some w, 1)
      else findCloseRun ops pred rest (i + 1) (e + 1)

/-- A JavaScript number as observed by `Number.isFinite` and comparisons. -/
inductive JsNum where
  | nan
  | posInf
  | negInf
  | num (n : Int)
deriving DecidableEq

/-- The shape of a candidate source value as inspected by `isArrayLike`:
whether `Array.isArray` holds, whether it is an `ArrayBuffer` view, whether it
is a `DataView`, whether it is a string primitive, its numeric `length`
property if any, and whether index 0 is present (`0 in candidate`). -/
structure JsValue where
  isArray : Bool
  isView : Bool
  isDataView : Bool
  isString : Bool
  lengthProp : Option JsNum
  hasIndex0 : Bool
deriving DecidableEq

/-- The source classifier `isArrayLike` (src/stream/isArrayLike.ts), branch
for branch: arrays; then views with `DataView` excluded; then strings; then
objects with a finite, non-negative numeric `length` and either zero length
or a present index 0; otherwise false. -/
def isArrayLike (v : JsValue) : Bool :=
  if v.isArray then true
  else if v.isView then !v.isDataView
  else if v.isString then true
  else match v.lengthProp with
    | some (JsNum.num n) =>
      if 0 ≤ n then decide (n = 0) || v.hasIndex0 else false
    | some _ => false
    | none => false

/-- A per-token match rule as compiled by the text-search code: the token and
whether its regex is anchored at the start (`'^' + escapeRegExp(token)`). -/
structure TokenRule where
  token : JStr
  anchored : Bool
deriving DecidableEq

/-- The semantics of one compiled token regex with the `i` flag on a field:
anchored means case-insensitive starts-with, unanchored means case-insensitive
contains. -/
def ruleMatches (r : TokenRule) (field : JStr) : Bool :=
  if r.anchored then startsWithCI field r.token else containsCI field r.token

/-- The regex construction inlined in `Stream.filterText` (Stream.ts):
`new RegExp((t.length < 4 ? '^' : '') + escapeRegExp(t), 'i')` for every
token, independent of its position. -/
def inlineRules (tokens : List JStr) : List TokenRule :=
  tokens.map fun t => ⟨t, decide (t.length < 4)⟩

/-- The regex construction of `lib/buildRegExps.ts`:
`new RegExp((pos > 0 || t.length > 3 ? '' : '^') + escapeRegExp(t), 'i')`,
anchoring only the token at position 0 when its length is at most 3. -/
def buildRegExpsRules (tokens : List JStr) : List TokenRule :=
  tokens.enum.map fun q => ⟨q.2, decide (q.1 = 0) && decide (q.2.length ≤ 3)⟩

/-- The reject-or-compile decision of `Stream.filterText` (Stream.ts): with no
fields, or with no token of length greater than 2, the filter compiles to the
always-false predicate (`none` here); otherwise the tokens are sorted by
descending length and each receives its inline match rule. -/
def filterTextCompile (q : JStr) (fields : List JStr) : Option (List TokenRule) :=
  if fields.length = 0 then none
  else if !((jsTokenize q).any fun t => decide (2 < t.length)) then none
  else some (inlineRules (sortTokensDesc (jsTokenize q)))

theorem refPairFold_eq_filterMap {V : Type} (ops : List (MFOp V)) :
    ∀ xs : List (V × Nat),
      ops.foldl (fun a op => refPairStep op a) xs
        = xs.filterMap (fun q => (applyFused ops q.1 q.2).map (fun w => (w, q.2))) := by
  induction ops with
  | nil =>
    intro xs
    show xs = xs.filterMap (fun q => (applyFused [] q.1 q.2).map (fun w => (w, q.2)))
    exact (List.filterMap_some xs).symm
  | cons op rest ih =>
    intro xs
    cases op with
    | transform f =>
      rw [List.foldl_cons]
      show List.foldl (fun a op => refPairStep op a) (refPairStep (.transform f) xs) rest = _
      rw [ih]
      show (xs.map fun q => (f q.1 q.2, q.2)).filterMap _ = _
      rw [List.filterMap_map]
      rfl
    | filter p =>
      rw [List.foldl_cons]
      show List.foldl (fun a op => refPairStep op a) (refPairStep (.filter p) xs) rest = _
      rw [ih]
      show (xs.filterMap fun q => if p q.1 q.2 then some q else none).filterMap _ = _
      rw [List.filterMap_filterMap]
      congr 1
      funext q
      by_cases hp : p q.1 q.2 <;> simp [hp, applyFused]

/-- C1 (counterexample): the compiled `toArray` differs from the per-stage-index
reference evaluation. Source `[0, 5]`, ops `filter(v => v != 0)` then
`transform((v, i) => i)`: the fused loop passes the source index (yielding
`[1]`), the reference map pass passes the post-filter index (yielding `[0]`). -/
theorem fused_toArray_ne_staged_reference :
    fusedToArray [MFOp.filter (fun v _ => v != 0), MFOp.transform (fun _ i => i)] [0, 5]
      ≠ refStagedToArray
          [MFOp.filter (fun v _ => v != 0), MFOp.transform (fun _ i => i)] [0, 5] := by
  decide

/-- C1 (amended): for every finite source and every transform/filter operation
list, the compiled `toArray` terminal returns exactly the array produced by the
reference unfused evaluation in which every callback receives the element and
its index in the original source (the fused loops thread the source position
through all stages; indices are not recomputed per stage). -/
theorem fused_toArray_eq_source_index_reference {V : Type}
    (ops : List (MFOp V)) (src : List V) :
    fusedToArray ops src = refSourceIdxToArray ops src := by
  unfold refSourceIdxToArray
  rw [refPairFold_eq_filterMap, List.filterMap_map, List.map_filterMap]
  unfold fusedToArray
  congr 1
  funext q
  show applyFused ops q.2 q.1
      = Option.map Prod.fst ((applyFused ops q.2 q.1).map (fun w => (w, q.1)))
  cases applyFused ops q.2 q.1 <;> rfl

theorem reduceLoop_started {A : Type} (f : Option A → Option A → Nat → Option A) :
    ∀ (l : List (Option A)) (acc : Option A) (i c : Nat),
      reduceLoop f l acc true i c = (foldIdx f l acc i, true, c + l.length) := by
  intro l
  induction l with
  | nil => intro acc i c; simp [reduceLoop, foldIdx]
  | cons v rest ih =>
    intro acc i c
    simp only [reduceLoop, if_pos, foldIdx, ih, List.length_cons]
    exact congrArg _ (congrArg _ (by omega))

theorem reduceLoop_started_out {A : Type} (f : Option A → Option A → Nat → Option A) :
    ∀ (l : List (Option A)) (acc : Option A) (st : Bool) (i c : Nat),
      (reduceLoop f l acc st i c).2.1 = (st || !l.isEmpty) := by
  intro l
  induction l with
  | nil => intro acc st i c; cases st <;> simp [reduceLoop]
  | cons v rest ih => intro acc st i c; cases st <;> simp [reduceLoop, ih]

/-- C7: fold seed rules of the compiled reduce terminal. With no seed and
exactly one emitted element, that element is returned and the combiner is
never invoked; with no seed and zero emitted elements the empty-reduce
TypeError is raised; with a supplied seed and zero emitted elements the seed
is returned unchanged with no combiner call; and the error is raised exactly
when zero elements were emitted and no seed was supplied. -/
theorem reduce_seed_rules {A : Type} (ops : List (MFOp (Option A)))
    (f : Option A → Option A → Nat → Option A) (init : Option A)
    (src : List (Option A)) (w : Option A) (a : A) :
    (fusedToArray ops src = [w] → reduceRun ops f none src = (.ok w, 0)) ∧
    (fusedToArray ops src = [] →
      reduceRun ops f none src = (.error jsReduceErrMsg, 0)) ∧
    (fusedToArray ops src = [] →
      reduceRun ops f (some a) src = (.ok (some a), 0)) ∧
    ((reduceRun ops f init src).1 = .error jsReduceErrMsg ↔
      (fusedToArray ops src = [] ∧ init = none)) := by
  refine ⟨?_, ?_, ?_, ?_⟩
  · intro h; unfold reduceRun; rw [h]; rfl
  · intro h; unfold reduceRun; rw [h]; rfl
  · intro h; unfold reduceRun; rw [h]; rfl
  · unfold reduceRun
    have hs := reduceLoop_started_out f (fusedToArray ops src) init init.isSome 0 0
    rcases hE : fusedToArray ops src with _ | ⟨v, rest⟩ <;> rw [hE] at hs <;>
      cases init <;> simp_all [reduceLoop, jsReduceErrMsg]

theorem reduce_seed_rules_witness :
    reduceRun (A := Nat) [] (fun acc v _ => acc.bind fun x => v.map fun y => x + y)
        none [some 5] = (.ok (some 5), 0) ∧
    reduceRun (A := Nat) [] (fun acc v _ => acc.bind fun x => v.map fun y => x + y)
        none [] = (.error jsReduceErrMsg, 0) ∧
    reduceRun (A := Nat) [] (fun acc v _ => acc.bind fun x => v.map fun y => x + y)
        (some 10) [] = (.ok (some 10), 0) := by
  have h := reduce_seed_rules (A := Nat) []
    (fun acc v _ => acc.bind fun x => v.map fun y => x + y) none [] (some 5) 10
  have h2 := reduce_seed_rules (A := Nat) []
    (fun acc v _ => acc.bind fun x => v.map fun y => x + y) none [some 5] (some 5) 10
  exact ⟨h2.1 rfl, h.2.1 rfl, h.2.2.1 rfl⟩

/-- C10: reduce treats an explicitly passed `undefined` initial value exactly
like an absent seed, because the has-initial flag is `initialValue !==
undefined` (`init.isSome` with `none` standing for `undefined`): with zero
emitted elements the empty-reduce TypeError is raised, and with a non-empty
emission the first emitted element becomes the accumulator with no combiner
call for it (exactly one call per later element, starting at index 1). -/
theorem reduce_undefined_seed_is_absent {A : Type} (ops : List (MFOp (Option A)))
    (f : Option A → Option A → Nat → Option A) (src : List (Option A))
    (v : Option A) (rest : List (Option A)) :
    (fusedToArray ops src = [] →
      reduceRun ops f none src = (.error jsReduceErrMsg, 0)) ∧
    (fusedToArray ops src = v :: rest →
      reduceRun ops f none src = (.ok (foldIdx f rest v 1), rest.length)) := by
  constructor
  · intro h; unfold reduceRun; rw [h]; rfl
  · intro h
    unfold reduceRun
    rw [h]
    simp only [Option.isSome_none]
    have hr : reduceLoop f (v :: rest) none false 0 0
        = (foldIdx f rest v 1, true, 0 + rest.length) := by
      show reduceLoop f rest v true 1 0 = _
      exact reduceLoop_started f rest v 1 0
    rw [hr]
    simp

theorem reduce_undefined_seed_is_absent_witness :
    reduceRun (A := Nat) [] (fun _ v _ => v) none [some 7, some 8, some 9]
      = (.ok (some 9), 2) := by
  have h := reduce_undefined_seed_is_absent (A := Nat) []
    (fun _ v _ => v) [some 7, some 8, some 9] (some 7) [some 8, some 9]
  exact h.2 rfl

theorem toInt32_of_small (d : Int) (h0 : 0 ≤ d) (h1 : d < 2147483648) :
    toInt32 d = d := by
  unfold toInt32
  have hm : d % 4294967296 = d := Int.emod_eq_of_lt h0 (by omega)
  simp only [hm]
  exact if_pos h1

/-- C2: whenever the op list contains a filter together with a range whose
truncated start is positive — in particular `filter(p).drop(d)` with
`0 < d` — every compiled terminal returns the usage error, whose message names
both `range(start > 0)` and filters; the chain methods themselves are total
(the error appears only at terminal invocation, as the `Except` result of the
compiled terminal), and no pipeline whose ranges all have start 0 (`take`)
ever produces it. -/
theorem filter_with_positive_range_start_errors {V : Type}
    (ops : List (COp V)) (src : List V) (pred : V → Nat → Bool)
    (p : V → Nat → Bool) (d k : Int) :
    (hasFilterOps ops = true → hasPositiveStartRange ops = true →
      compiledToArray ops src = .error streamLimitMsg ∧
      compiledEvery ops src pred = .error streamLimitMsg ∧
      compiledCount ops src = .error streamLimitMsg) ∧
    (strContains streamLimitMsg ("range(start > 0)") = true ∧
      strContains streamLimitMsg ("filter") = true) ∧
    (0 < d → d < 2147483648 →
      compiledToArray (dropChain (filterChain [] p) d) src = .error streamLimitMsg) ∧
    (hasPositiveStartRange ops = false →
      exceptIsOk (compiledToArray ops src) = true) ∧
    exceptIsOk (compiledToArray (takeChain (filterChain [] p) k) src) = true := by
  refine ⟨?_, ⟨by rfl, by rfl⟩, ?_, ?_, ?_⟩
  · intro h1 h2
    refine ⟨?_, ?_, ?_⟩ <;>
      simp [compiledToArray, compiledEvery, compiledCount, buildOps, h1, h2]
  · intro hd0 hd1
    have hpos : hasPositiveStartRange (dropChain (filterChain [] p) d) = true := by
      simp [dropChain, filterChain, hasPositiveStartRange,
        toInt32_of_small d (le_of_lt hd0) hd1, hd0]
    have hfil : hasFilterOps (dropChain (filterChain [] p) d) = true := by
      simp [dropChain, filterChain, hasFilterOps]
    simp [compiledToArray, buildOps, hpos, hfil]
  · intro h2
    simp only [compiledToArray, buildOps, h2, Bool.and_false]
    split
    · rename_i m heq
      by_cases hnm : (hasFilterOps ops && hasNoMatchOps ops) = true <;>
        simp [hnm] at heq
    · rfl
    · rfl
  · rfl

theorem filter_with_positive_range_start_errors_witness :
    compiledToArray [COp.filter (fun (_ : Nat) _ => true) false, COp.range 1 none]
        [1, 2, 3] = .error streamLimitMsg :=
  ((filter_with_positive_range_start_errors
      [COp.filter (fun (_ : Nat) _ => true) false, COp.range 1 none]
      [1, 2, 3] (fun _ _ => true) (fun _ _ => true) 1 1).1 (by rfl) (by rfl)).1

/-- C4 (counterexample): on a fused plan statically marked no-results (a
filter op carrying the `noMatch` marker, as produced by a not-specific-enough
`filterText`), the compiled `every` terminal returns false, not the vacuous
true the claim states — the compiler emits `return false` for the NO_RESULTS
`every` body. -/
theorem every_noResults_plan_returns_false :
    compiledEvery [COp.filter (fun (_ : Nat) _ => false) true] [1] (fun _ _ => true)
      = .ok false ∧
    compiledEvery [COp.filter (fun (_ : Nat) _ => false) true] [1] (fun _ _ => true)
      ≠ .ok true := by
  refine ⟨rfl, fun hcon => ?_⟩
  exact Bool.noConfusion (Except.ok.inj hcon)

/-- C4 (amended): the compiled `every` terminal returns true for an empty
source and for an ordinary filter that dynamically rejects every element, but
a pipeline statically marked no-results (a `noMatch` filter present) returns
false. -/
theorem every_empty_cases {V : Type} (ops : List (COp V)) (src : List V)
    (pred : V → Nat → Bool) (p : V → Nat → Bool) :
    (∀ skip maxE, buildOps ops = .plan skip maxE →
      compiledEvery ops ([] : List V) pred = .ok true) ∧
    ((∀ v i, p v i = false) →
      compiledEvery [.filter p false] src pred = .ok true) ∧
    (hasFilterOps ops = true → hasNoMatchOps ops = true →
      hasPositiveStartRange ops = false →
      compiledEvery ops src pred = .ok false) := by
  refine ⟨?_, ?_, ?_⟩
  · intro skip maxE h
    simp [compiledEvery, h, enumPairs, everyLoop]
  · intro hp
    have hplan : buildOps [COp.filter p false] = .plan 0 none := rfl
    have hloop : ∀ (l : List (V × Nat)) (e : Nat),
        everyLoop [COp.filter p false] pred l 0 none e = true := by
      intro l
      induction l with
      | nil => intro e; rfl
      | cons q rest ih =>
        intro e
        rcases q with ⟨v, i⟩
        simp [everyLoop, applyCSteps, hp v i, ih]
    simp [compiledEvery, hplan, hloop]
  · intro h1 h2 h3
    simp [compiledEvery, buildOps, h1, h2, h3]

theorem every_empty_cases_witness :
    compiledEvery [COp.filter (fun (_ : Nat) _ => false) false] [1, 2]
      (fun _ _ => true) = .ok true :=
  (every_empty_cases [] [1, 2] (fun _ _ => true) (fun _ _ => false)).2.1
    (fun _ _ => rfl)

theorem stepROp_stateless {V : Type} (op : ROp V) (v : V) (i : Nat)
    (h : isStatelessROp op = true) : (stepROp op v i).2 = op := by
  cases op <;> simp [stepROp, isStatelessROp] at h ⊢

theorem runROps_stateless {V : Type} : ∀ (ops : List (ROp V)) (v : V) (i : Nat),
    (∀ op ∈ ops, isStatelessROp op = true) → (runROps ops v i).2 = ops := by
  intro ops
  induction ops with
  | nil => intro v i _; rfl
  | cons op rest ih =>
    intro v i h
    have h1 : isStatelessROp op = true := h op (List.mem_cons_self op rest)
    have h2 : ∀ o ∈ rest, isStatelessROp o = true :=
      fun o ho => h o (List.mem_cons_of_mem _ ho)
    unfold runROps
    rcases hres : (stepROp op v i).1 with _ | w <;>
      simp [hres, stepROp_stateless op v i h1, ih _ _ h2]

theorem runROpsToArray_stateless {V : Type} :
    ∀ (pairs : List (V × Nat)) (ops : List (ROp V)),
      (∀ op ∈ ops, isStatelessROp op = true) →
      (runROpsToArray ops pairs).2 = ops := by
  intro pairs
  induction pairs with
  | nil => intro ops _; rfl
  | cons q rest ih =>
    intro ops h
    rcases q with ⟨v, i⟩
    show (runROpsToArray (runROps ops v i).2 rest).2 = ops
    rw [runROps_stateless ops v i h]
    exact ih ops h

/-- C3 (counterexample): re-running `toArray` on the same Stream value built
with `drop(1)` over the unchanged source `[1, 2, 3]` yields `[2, 3]` the first
time and `[1, 2, 3]` the second time — the drop filter's captured `remaining`
counter was already consumed by the first run, so the claimed rerun
determinism fails for drop/take chains. -/
theorem drop_rerun_differs :
    (streamToArrayRun [ROp.dropCounter (V := Nat) 1] [1, 2, 3]).1 = [2, 3] ∧
    (streamToArrayRun
        (streamToArrayRun [ROp.dropCounter (V := Nat) 1] [1, 2, 3]).2
        [1, 2, 3]).1 = [1, 2, 3] ∧
    (streamToArrayRun [ROp.dropCounter (V := Nat) 1] [1, 2, 3]).1 ≠
      (streamToArrayRun
        (streamToArrayRun [ROp.dropCounter (V := Nat) 1] [1, 2, 3]).2
        [1, 2, 3]).1 := by
  refine ⟨by decide, by decide, by decide⟩

/-- C3 (amended): terminal re-runs on the same Stream value are deterministic
exactly for pipelines whose ops are stateless (plain map/filter): such a run
leaves the op list unchanged, so a second identical run returns the identical
result; chains built with `drop(n)`/`take(n)` carry a mutable closure counter
in the Stream value and are not covered. -/
theorem pure_ops_rerun_deterministic {V : Type} (ops : List (ROp V)) (src : List V)
    (h : ∀ op ∈ ops, isStatelessROp op = true) :
    (streamToArrayRun ops src).2 = ops ∧
    (streamToArrayRun (streamToArrayRun ops src).2 src).1
      = (streamToArrayRun ops src).1 := by
  have h2 : (streamToArrayRun ops src).2 = ops :=
    runROpsToArray_stateless (enumPairs src) ops h
  exact ⟨h2, by rw [h2]⟩

theorem pure_ops_rerun_deterministic_witness :
    (streamToArrayRun
        (streamToArrayRun [ROp.filter (fun (v : Nat) _ => v != 1)] [1, 2]).2
        [1, 2]).1
      = (streamToArrayRun [ROp.filter (fun (v : Nat) _ => v != 1)] [1, 2]).1 :=
  (pure_ops_rerun_deterministic [ROp.filter (fun (v : Nat) _ => v != 1)] [1, 2]
    (by intro op hop; simp at hop; rw [hop]; rfl)).2

/-- C8: on a generic-sequence source whose cursor exposes a return/close hook,
a compiled `some` or `find` terminal that resolves early (leaves the loop
before the cursor reports done) invokes the hook exactly once before
returning, and a run that exhausts the cursor never invokes it. -/
theorem early_exit_close_hook_once {V : Type} (ops : List (MFOp V))
    (pred : V → Nat → Bool) (src : List V) :
    (∀ i e n, someCloseRun ops pred src i e = (true, n) → n = 1) ∧
    (∀ i e n, someCloseRun ops pred src i e = (false, n) → n = 0) ∧
    (∀ i e v n, findCloseRun ops pred src i e = (some v, n) → n = 1) := by
  induction src with
  | nil =>
    refine ⟨?_, ?_, ?_⟩
    · intro i e n h; simp [someCloseRun] at h
    · intro i e n h; simp [someCloseRun] at h; omega
    · intro i e v n h; simp [findCloseRun] at h
  | cons v rest ih =>
    refine ⟨?_, ?_, ?_⟩
    · intro i e n h
      unfold someCloseRun at h
      rcases ha : applyFused ops v i with _ | w <;> simp only [ha] at h
      · exact ih.1 _ _ _ h
      · by_cases hp : pred w e
        · rw [if_pos hp] at h
          exact (congrArg Prod.snd h).symm
        · rw [if_neg hp] at h
          exact ih.1 _ _ _ h
    · intro i e n h
      unfold someCloseRun at h
      rcases ha : applyFused ops v i with _ | w <;> simp only [ha] at h
      · exact ih.2.1 _ _ _ h
      · by_cases hp : pred w e
        · rw [if_pos hp] at h
          exact absurd (congrArg Prod.fst h) (by simp)
        · rw [if_neg hp] at h
          exact ih.2.1 _ _ _ h
    · intro i e w0 n h
      unfold findCloseRun at h
      rcases ha : applyFused ops v i with _ | w <;> simp only [ha] at h
      · exact ih.2.2 _ _ _ _ h
      · by_cases hp : pred w e
        · rw [if_pos hp] at h
          exact (congrArg Prod.snd h).symm
        · rw [if_neg hp] at h
          exact ih.2.2 _ _ _ _ h

theorem early_exit_close_hook_once_witness :
    (1 : Nat) = 1 ∧ someCloseRun [] (fun (v : Nat) _ => v == 2) [1, 2, 3] 0 0 = (true, 1) :=
  ⟨(early_exit_close_hook_once [] (fun (v : Nat) _ => v == 2) [1, 2, 3]).1 0 0 1
      (by decide),
    by decide⟩

/-- C9: characterization of the source classifier. Under the host invariants
for JavaScript built-ins (a DataView is a view, a string primitive is neither
an array nor a view, a DataView has no `length` property), `isArrayLike`
returns true exactly for arrays, for buffer views other than DataView, for
strings, and for objects with a finite, non-negative numeric `length` that is
0 or whose index 0 is present; in every other case — in particular for a
DataView — it returns false. -/
theorem isArrayLike_characterization (v : JsValue)
    (hdv : v.isDataView = true → v.isView = true)
    (hs : v.isString = true → v.isArray = false ∧ v.isView = false)
    (hlen : v.isDataView = true → v.lengthProp = none) :
    isArrayLike v = true ↔
      (v.isArray = true ∨ (v.isView = true ∧ v.isDataView = false) ∨
        v.isString = true ∨
        ∃ n : Int, v.lengthProp = some (JsNum.num n) ∧ 0 ≤ n ∧
          (n = 0 ∨ v.hasIndex0 = true)) := by
  rcases v with ⟨a, vw, dv, st, lp, h0⟩
  cases a <;> cases vw <;> cases dv <;> cases st <;>
    rcases lp with _ | jn <;> (try cases jn) <;>
    simp_all [isArrayLike]

theorem isArrayLike_characterization_witness :
    isArrayLike
        ⟨false, true, true, false, none, false⟩ = false ∧
    isArrayLike
        ⟨false, false, false, false, some (JsNum.num 3), true⟩ = true := by
  constructor
  · have h := isArrayLike_characterization
      ⟨false, true, true, false, none, false⟩
      (fun _ => rfl) (fun hcon => by cases hcon) (fun _ => rfl)
    cases hval : isArrayLike ⟨false, true, true, false, none, false⟩
    · rfl
    · exfalso
      rcases h.mp hval with h1 | h2 | h3 | ⟨n, hn, _⟩
      · cases h1
      · cases h2.2
      · cases h3
      · cases hn
  · exact (isArrayLike_characterization
      ⟨false, false, false, false, some (JsNum.num 3), true⟩
      (fun hcon => by cases hcon) (fun hcon => by cases hcon)
      (fun hcon => by cases hcon)).mpr
      (Or.inr (Or.inr (Or.inr ⟨3, rfl, by omega, Or.inr rfl⟩)))

/-- C5 (counterexample): with the single token "ab" (length 2, hence > 1) and
a non-empty field list, `Stream.filterText` still compiles to the always-false
filter, although the claimed reject condition (empty field list, or no token
of length > 1) does not hold — the code's guard demands a token of length
greater than 2. -/
theorem filterText_two_char_token_rejected :
    (filterTextCompile "ab".data ["name".data]).isNone = true ∧
    ¬(["name".data] = ([] : List JStr) ∨
        ∀ t ∈ jsTokenize "ab".data, ¬ 1 < t.length) := by
  refine ⟨by decide, by decide⟩

/-- C5 (amended): `Stream.filterText` compiles to an always-false filter
exactly when the field list is empty or no whitespace-separated token of the
query has length greater than 2; in every other case it compiles a predicate
over the sorted tokens. -/
theorem filterText_reject_iff (q : JStr) (fields : List JStr) :
    (filterTextCompile q fields).isNone = true ↔
      (fields = [] ∨ ∀ t ∈ jsTokenize q, t.length ≤ 2) := by
  unfold filterTextCompile
  by_cases hf : fields.length = 0
  · simp [hf, List.length_eq_zero.mp hf]
  · rw [if_neg hf]
    cases hany : (jsTokenize q).any (fun t => decide (2 < t.length)) with
    | false =>
      rw [List.any_eq_false] at hany
      simp only [decide_eq_true_eq] at hany
      simp only [hany, Bool.not_false, if_true, Option.isNone_none, true_iff]
      right
      intro t ht
      have := hany t ht
      omega
    | true =>
      rw [List.any_eq_true] at hany
      obtain ⟨t, ht, h2⟩ := hany
      rw [decide_eq_true_eq] at h2
      simp only [Bool.not_true, Bool.false_eq_true, if_false, Option.isNone_some,
        false_iff]
      intro hor
      rcases hor with h | h
      · exact hf (by rw [h]; rfl)
      · have := h t ht
        omega

theorem filterText_reject_iff_witness :
    (filterTextCompile "a an of".data ["name".data, "emailAddress".data]).isNone
      = true :=
  (filterText_reject_iff "a an of".data ["name".data, "emailAddress".data]).mpr
    (Or.inr (by decide))

/-- C6 (counterexample): for the query "abcd xyz" the sorted token list is
["abcd", "xyz"]; `buildRegExps` gives the position-1 token "xyz" (length 3)
an unanchored rule, whose contains matching accepts the field "AXYZ", while
the claimed position-independent rule (length < 4 means starts-with) rejects
"AXYZ". -/
theorem buildRegExps_later_short_token_contains :
    (buildRegExpsRules (sortTokensDesc (jsTokenize "abcd xyz".data))).get? 1
      = some ⟨"xyz".data, false⟩ ∧
    ruleMatches ⟨"xyz".data, false⟩ "AXYZ".data = true ∧
    (if ("xyz".data : JStr).length < 4
      then startsWithCI "AXYZ".data "xyz".data
      else containsCI "AXYZ".data "xyz".data) = false := by
  refine ⟨by decide, by decide, by decide⟩

/-- C6 (amended): in the regexes inlined by `Stream.filterText` every token's
rule is anchored (case-insensitive starts-with) iff its length is < 4,
independent of position; in the `lib/buildRegExps` helper the anchor is
applied only to the token at position 0 of length ≤ 3, and every later token
is matched by contains regardless of length. Anchored rules match by
case-insensitive starts-with, unanchored ones by case-insensitive contains. -/
theorem token_anchor_position_rules (tokens : List JStr) (i : Nat) (r : TokenRule)
    (field : JStr) :
    ((inlineRules tokens).get? i = some r →
      (r.anchored = true ↔ r.token.length < 4)) ∧
    ((buildRegExpsRules tokens).get? i = some r →
      (r.anchored = true ↔ (i = 0 ∧ r.token.length ≤ 3))) ∧
    ruleMatches ⟨r.token, true⟩ field = startsWithCI field r.token ∧
    ruleMatches ⟨r.token, false⟩ field = containsCI field r.token := by
  refine ⟨?_, ?_, rfl, rfl⟩
  · intro h
    unfold inlineRules at h
    rw [List.get?_map] at h
    rcases ht : tokens.get? i with _ | t <;> rw [ht] at h
    · cases h
    · rw [Option.map_some'] at h
      have he := Option.some.inj h
      subst he
      simp
  · intro h
    unfold buildRegExpsRules at h
    rw [List.get?_map, List.enum_get?] at h
    rcases ht : tokens.get? i with _ | t <;> rw [ht] at h
    · cases h
    · rw [Option.map_some', Option.map_some'] at h
      have he := Option.some.inj h
      subst he
      simp

theorem token_anchor_position_rules_witness :
    ((⟨"ab".data, true⟩ : TokenRule).anchored = true) ∧
    ((⟨"wxyz".data, false⟩ : TokenRule).anchored = true ↔
      (1 = 0 ∧ ("wxyz".data : JStr).length ≤ 3)) :=
  ⟨((token_anchor_position_rules ["ab".data] 0 ⟨"ab".data, true⟩ "f".data).1
      (by decide)).mpr (by decide),
    (token_anchor_position_rules ["abcd".data, "wxyz".data] 1
      ⟨"wxyz".data, false⟩ "f".data).2.1 (by decide)⟩
